import Mathlib

/-!
Verification of the resolution-pipeline scripts of this repository against
their natural-language specification.

The Lean definitions below are shallow embeddings of the Python sources:

* `src/Cache/app.py` (`CacheManager`): `evict_lru`, `evict_fifo`, `evict_lfu`,
  `evict_random`, `evict_if_needed`, `redis_setex`, `cacheManager_set`.
* `src/LLM_Client/app.py` (`LLMClient`): `llm_cache_key`, `get_cached_answer`,
  `cache_answer`, `get_answer_from_db`, `save_question_answer_to_db`,
  `rotate_key`, `get_answer_from_gemini`, and the per-question body of
  `run_batches` as `resolve`.
* `src/Generador_Trafico/ingresar.py`: `conflictUpdate`, `upsertOne`,
  `upsert_questions`.

Modelling conventions: the Redis database is a list of entries in its key
enumeration order (`KEYS *` order is unspecified in Redis; a list fixes one
order); the relational `questions` table is a list of rows in row order
(`LIMIT 1` without `ORDER BY` returns the first row of that order); machine
time, TTLs and network transport are explicit parameters; a fallible
transport step is a `Bool` parameter saying whether the call raised.
Python string truthiness (`if cached:`) is `truthy` below.
-/

/-- One Redis entry of the `CacheManager` cache, with the synthetic
last-access timestamp that the spec's LRU policy talks about (the code
itself never reads it: `_evict_lru` deletes `keys()[0]`). -/
structure CEntry where
  key : String
  value : String
  lastAccess : Nat
deriving DecidableEq

/-- `CACHE_POLICY` values dispatched on by `CacheManager._evict_if_needed`. -/
inductive Policy where
  | LRU
  | FIFO
  | LFU
  | RANDOM
deriving DecidableEq

/-- `CacheManager._evict_lru`: `keys = self.redis_client.keys('*'); if keys:
self.redis_client.delete(keys[0])` — deletes the first listed key, ignoring
all access metadata. -/
def evict_lru (es : List CEntry) : List CEntry :=
  match es with
  | [] => []
  | _ :: rest => rest

/-- `CacheManager._evict_lfu`: also deletes `keys[0]` (the code comments call
this a simplification). -/
def evict_lfu (es : List CEntry) : List CEntry :=
  match es with
  | [] => []
  | _ :: rest => rest

/-- First entry minimising `f` (Python `min(keys, key=f)` keeps the first of
several minima). -/
def minEntryBy (f : CEntry → Nat) : List CEntry → Option CEntry
  | [] => none
  | e :: es =>
    match minEntryBy f es with
    | none => some e
    | some m => if f e ≤ f m then some e else some m

/-- `CacheManager._evict_fifo`: deletes
`min(keys, key=lambda k: object('idletime', k))`; idle time of an entry at
time `now` is `now - lastAccess`. -/
def evict_fifo (now : Nat) (es : List CEntry) : List CEntry :=
  match minEntryBy (fun e => now - e.lastAccess) es with
  | none => es
  | some m => es.eraseP (fun e => e.key == m.key)

/-- `CacheManager._evict_random`: `random.choice(keys)` then delete; the
random draw is the explicit index `choice` (taken modulo the key count). -/
def evict_random (choice : Nat) (es : List CEntry) : List CEntry :=
  match es with
  | [] => []
  | e :: rest =>
    (e :: rest).eraseP (fun x => x.key == ((e :: rest).getD (choice % (rest.length + 1)) e).key)

/-- The policy dispatch inside `CacheManager._evict_if_needed`
(`LRU` / `FIFO` / `LFU` by name, anything else random). -/
def applyEvict (p : Policy) (now choice : Nat) (es : List CEntry) : List CEntry :=
  match p with
  | .LRU => evict_lru es
  | .FIFO => evict_fifo now es
  | .LFU => evict_lfu es
  | .RANDOM => evict_random choice es

/-- `CacheManager._evict_if_needed`: `if current_size >= self.cache_size:`
evict one entry by policy — a single `if`, not a loop. -/
def evict_if_needed (p : Policy) (cap now choice : Nat) (es : List CEntry) : List CEntry :=
  if cap ≤ es.length then applyEvict p now choice es else es

/-- `redis_client.setex(key, ttl, value)`: overwrites the entry when the key
exists, otherwise appends a fresh entry; the write refreshes last access. -/
def redis_setex (es : List CEntry) (k v : String) (now : Nat) : List CEntry :=
  if es.any (fun e => e.key == k) then
    es.map (fun e => if e.key == k then { key := k, value := v, lastAccess := now } else e)
  else es ++ [{ key := k, value := v, lastAccess := now }]

/-- `CacheManager.set`: evict if needed, then `setex`; every exception is
caught and turned into `return False`.  `transportOk = false` models the
transport raising inside `setex` — the eviction has already happened by
then, and the `except` clause leaves it in place. -/
def cacheManager_set (p : Policy) (cap now choice : Nat) (transportOk : Bool)
    (es : List CEntry) (k v : String) : Bool × List CEntry :=
  if transportOk then
    (true, redis_setex (evict_if_needed p cap now choice es) k v now)
  else
    (false, evict_if_needed p cap now choice es)

/-- Spec-side ordering for the LRU victim: strictly older last access wins,
ties broken by the lexicographically lowest key. -/
def lruBetter (a b : CEntry) : Bool :=
  a.lastAccess < b.lastAccess || (a.lastAccess == b.lastAccess && decide (a.key < b.key))

/-- Spec-side LRU victim: the resident entry with the oldest last-access
timestamp, ties broken by lowest key (from the spec's policy table, to be
compared with what `evict_lru` actually deletes). -/
def specLruEntry : List CEntry → Option CEntry
  | [] => none
  | e :: es =>
    match specLruEntry es with
    | none => some e
    | some m => if lruBetter e m then some e else some m

/-- Key of the spec-side LRU victim. -/
def specLruVictim (es : List CEntry) : Option String :=
  (specLruEntry es).map (fun e => e.key)

/-- Python string truthiness of an optional Redis / SQL result:
`None` and the empty string are falsy. -/
def truthy : Option String → Bool
  | none => false
  | some s => s != ""

/-- ASCII whitespace for Python `str.strip()` (the characters that occur in
this development). -/
def isSpaceC (c : Char) : Bool :=
  c == ' ' || c == '\t' || c == '\n' || c == '\r'

/-- `question.strip().lower()` on the character list of a string. -/
def normQ (q : String) : List Char :=
  (((q.data.dropWhile isSpaceC).reverse.dropWhile isSpaceC).reverse).map Char.toLower

/-- `LLMClient._generate_cache_key`:
`f"llm_answer:{hash(question.strip().lower())}"`.  Python's `hash` is modelled
by the normalised text itself (an injective stand-in; hash collisions are not
modelled). -/
def llm_cache_key (q : String) : String :=
  ⟨"llm_answer:".data ++ normQ q⟩

/-- `LLMClient.get_cached_answer`: `redis_client.get(cache_key)` over the
cache key-value list. -/
def get_cached_answer (q : String) (cache : List (String × String)) : Option String :=
  (cache.find? (fun kv => kv.1 == llm_cache_key q)).map (fun kv => kv.2)

/-- `LLMClient.cache_answer`: `redis_client.setex(cache_key, ttl, answer)` —
overwrite when present, else append. -/
def cache_answer (q a : String) (cache : List (String × String)) : List (String × String) :=
  if cache.any (fun kv => kv.1 == llm_cache_key q) then
    cache.map (fun kv => if kv.1 == llm_cache_key q then (kv.1, a) else kv)
  else cache ++ [(llm_cache_key q, a)]

/-- A row of the `questions` table as the pipeline reads and writes it.
`human_answer` is kept `NOT NULL` by the code (it stores `''`), so it is a
plain `String`; `llm_answer` is nullable (the code filters `IS NOT NULL`). -/
structure DbRow where
  question_text : String
  human_answer : String
  llm_answer : Option String
deriving DecidableEq

/-- Case-insensitive prefix test on character lists. -/
def isPrefixC : List Char → List Char → Bool
  | [], _ => true
  | _ :: _, [] => false
  | a :: as, b :: bs => a == b && isPrefixC as bs

/-- Substring test on character lists. -/
def isInfixC (n : List Char) : List Char → Bool
  | [] => n.isEmpty
  | b :: bs => isPrefixC n (b :: bs) || isInfixC n bs

/-- SQL `hay ILIKE '%needle%'`: case-insensitive substring containment
(wildcard characters inside `needle` are not modelled). -/
def containsCI (hay needle : String) : Bool :=
  isInfixC (needle.data.map Char.toLower) (hay.data.map Char.toLower)

/-- The row filter of `LLMClient.get_answer_from_db`:
`question_text ILIKE '%q%' AND llm_answer IS NOT NULL`. -/
def qMatches (q : String) (r : DbRow) : Bool :=
  containsCI r.question_text q && r.llm_answer.isSome

/-- `LLMClient.get_answer_from_db`:
`SELECT llm_answer FROM questions WHERE question_text ILIKE %q% AND
llm_answer IS NOT NULL LIMIT 1` — the first matching row's answer. -/
def get_answer_from_db (q : String) (db : List DbRow) : Option String :=
  (db.find? (qMatches q)).bind (fun r => r.llm_answer)

/-- `LLMClient.save_question_answer_to_db`.  On an existing `question_text`
the code runs `UPDATE ... SET llm_answer=%s, human_answer=COALESCE(%s,
human_answer)` with parameter `human_answer or ""`: that parameter is never
SQL `NULL`, so the `COALESCE` always selects it and the stored
`human_answer` becomes the passed string (the empty string when the caller
passed none, as `run_batches` always does).  Otherwise it inserts a fresh
row. -/
def save_question_answer_to_db (q ans human : String) (db : List DbRow) : List DbRow :=
  if db.any (fun r => r.question_text == q) then
    db.map (fun r =>
      if r.question_text == q then
        { r with llm_answer := some ans, human_answer := human }
      else r)
  else db ++ [{ question_text := q, human_answer := human, llm_answer := some ans }]

/-- Provenance recorded by `run_batches` (`source = "cache" | "database" |
"gemini"`). -/
inductive Source where
  | cache
  | database
  | gemini
deriving DecidableEq

/-- The shared mutable state the per-question body of `run_batches` touches:
the Redis cache, the `questions` table, and a counter of external Gemini
calls (the spec's external-call counter). -/
structure PipelineState where
  cache : List (String × String)
  db : List DbRow
  clientCalls : Nat
deriving DecidableEq

/-- The per-question body of `LLMClient.run_batches` ("Process flow:
cache -> db -> gemini"): cache probe with Python truthiness, then
`get_answer_from_db` with truthiness, then the external client; a database
hit is written through to the cache, a client answer is saved to the
database (`save_question_answer_to_db(q, answer)`, empty `human_answer`)
and cached.  `client` is the external call `get_answer_from_gemini`,
abstracted as a function of the question. -/
def resolve (client : String → String) (s : PipelineState) (q : String) :
    (String × Source) × PipelineState :=
  if truthy (get_cached_answer q s.cache) then
    (((get_cached_answer q s.cache).getD "", Source.cache), s)
  else if truthy (get_answer_from_db q s.db) then
    (((get_answer_from_db q s.db).getD "", Source.database),
     { s with cache := cache_answer q ((get_answer_from_db q s.db).getD "") s.cache })
  else
    ((client q, Source.gemini),
     { cache := cache_answer q (client q) s.cache,
       db := save_question_answer_to_db q (client q) "" s.db,
       clientCalls := s.clientCalls + 1 })

/-- Outcome of one `_call_gemini_once` as `get_answer_from_gemini` branches
on it: `success` is HTTP 200 with a parseable body (the call returns its
text); everything else — connection error (`status is None`), 429/503/500/
403, other statuses, or 200 with an unparseable body — rotates the key and
counts one attempt. -/
inductive AttemptResult where
  | success (text : String)
  | failure (status : Option Int)
deriving DecidableEq

/-- Result of `get_answer_from_gemini`: an answer text, or the
all-keys-failed fallthrough carrying the last observed status. -/
inductive GemOutcome where
  | answer (text : String)
  | exhausted (lastStatus : Option Int)
deriving DecidableEq

/-- `LLMClient._rotate_key`: `self._key_index = (self._key_index + 1) %
len(self.api_keys)`. -/
def rotate_key (n i : Nat) : Nat := (i + 1) % n

/-- The key index after `m` successive `_rotate_key` calls. -/
def rotIter (n i0 : Nat) : Nat → Nat
  | 0 => i0
  | m + 1 => rotate_key n (rotIter n i0 m)

/-- The retry loop of `LLMClient.get_answer_from_gemini`: while
`tried < keys_to_try`, call once with the current key; on success return the
text, otherwise rotate, record the status and count the attempt.  `oracle`
gives the outcome of the i-th HTTP call, `used` accumulates the key index of
each call, and `last` is the `status` variable the final error message
reports. -/
def gemLoop (oracle : Nat → AttemptResult) (n : Nat) :
    Nat → Nat → Nat → Option Int → List Nat → GemOutcome × Nat × List Nat
  | 0, tried, _idx, last, used => (GemOutcome.exhausted last, tried, used)
  | remaining + 1, tried, idx, _last, used =>
    match oracle tried with
    | AttemptResult.success t => (GemOutcome.answer t, tried + 1, used ++ [idx])
    | AttemptResult.failure st =>
      gemLoop oracle n remaining (tried + 1) ((idx + 1) % n) st (used ++ [idx])

/-- `LLMClient.get_answer_from_gemini` with the default
`max_key_attempts=None`, so `keys_to_try = len(self.api_keys)`; returns the
outcome, the number of HTTP calls made, and the key indices used. -/
def get_answer_from_gemini (oracle : Nat → AttemptResult) (pool : List String)
    (startIdx : Nat) : GemOutcome × Nat × List Nat :=
  gemLoop oracle pool.length pool.length 0 startIdx none []

/-- Python rendering of the `status` variable inside the f-string. -/
def statusText : Option Int → String
  | none => "None"
  | some n => toString n

/-- The string `get_answer_from_gemini` actually returns: the answer text on
success, and on exhaustion the literal error message
`f"Error al consultar Gemini: todas las keys probaron y fallaron (último
estado {status})"` — a plain string, not an exception. -/
def gemText : GemOutcome → String
  | GemOutcome.answer t => t
  | GemOutcome.exhausted st =>
      "Error al consultar Gemini: todas las keys probaron y fallaron " ++
        "(último estado " ++ statusText st ++ ")"

/-- The external client as `run_batches` sees it: the string returned by
`get_answer_from_gemini` (the request prompt does not alter the modelled
response oracle). -/
def clientOfGemini (oracle : Nat → AttemptResult) (pool : List String)
    (startIdx : Nat) : String → String :=
  fun _q => gemText (get_answer_from_gemini oracle pool startIdx).1

/-- A nullable text column of `ingresar.py`'s `questions` schema. -/
def isEmptyField : Option String → Bool
  | none => true
  | some s => s == ""

/-- A row of the `questions` table as `ingresar.upsert_questions` writes it.
The four score columns are floats in the database; the upsert copies them
verbatim, so their payload is modelled opaquely as optional integers. -/
structure QRecord where
  id : Int
  question_text : Option String
  human_answer : Option String
  llm_answer : Option String
  similarity_score : Option Int
  quality_score : Option Int
  completeness_score : Option Int
  overall_score : Option Int
  created_at : Option String
  evaluated_at : Option String
deriving DecidableEq

/-- The `ON CONFLICT (id) DO UPDATE SET` clause of
`ingresar.upsert_questions`: computed fields (`llm_answer`, the four scores,
`evaluated_at`) come from the excluded (new) row; `question_text` and
`human_answer` keep the existing value unless it is `NULL` or `''`;
`created_at` is not in the update list. -/
def conflictUpdate (old new : QRecord) : QRecord :=
  { id := old.id
    question_text :=
      if isEmptyField old.question_text then new.question_text else old.question_text
    human_answer :=
      if isEmptyField old.human_answer then new.human_answer else old.human_answer
    llm_answer := new.llm_answer
    similarity_score := new.similarity_score
    quality_score := new.quality_score
    completeness_score := new.completeness_score
    overall_score := new.overall_score
    created_at := old.created_at
    evaluated_at := new.evaluated_at }

/-- One `INSERT ... ON CONFLICT (id) DO UPDATE` row of
`ingresar.upsert_questions` applied to the table. -/
def upsertOne (t : List QRecord) (r : QRecord) : List QRecord :=
  if t.any (fun x => x.id == r.id) then
    t.map (fun x => if x.id == r.id then conflictUpdate x r else x)
  else t ++ [r]

/-- `ingresar.upsert_questions` on a batch of records. -/
def upsert_questions (t : List QRecord) (rs : List QRecord) : List QRecord :=
  rs.foldl upsertOne t

/-! ## Helper lemmas about the cache model -/

theorem minEntryBy_mem (f : CEntry → Nat) (es : List CEntry) (h : es ≠ []) :
    ∃ m, minEntryBy f es = some m ∧ m ∈ es := by
  induction es with
  | nil => exact absurd rfl h
  | cons e rest ih =>
    cases hmr : minEntryBy f rest with
    | none => exact ⟨e, by simp [minEntryBy, hmr], by simp⟩
    | some m =>
      have hne : rest ≠ [] := by
        intro hr; rw [hr] at hmr; simp [minEntryBy] at hmr
      obtain ⟨m', hm', hmem'⟩ := ih hne
      rw [hmr] at hm'
      cases hm'
      by_cases hle : f e ≤ f m
      · exact ⟨e, by simp [minEntryBy, hmr, hle], by simp⟩
      · exact ⟨m, by simp [minEntryBy, hmr, hle], List.mem_cons_of_mem e hmem'⟩

theorem getD_mem (l : List CEntry) (i : Nat) (d : CEntry) (hd : d ∈ l) : l.getD i d ∈ l := by
  rw [List.getD_eq_getElem?_getD l i d, ← List.get?_eq_getElem?]
  cases hg : l.get? i with
  | none => simpa using hd
  | some x => simpa using List.get?_mem hg

theorem applyEvict_length (p : Policy) (now choice : Nat) (es : List CEntry) (h : es ≠ []) :
    (applyEvict p now choice es).length + 1 = es.length := by
  cases p with
  | LRU => cases es with
    | nil => exact absurd rfl h
    | cons e rest => simp [applyEvict, evict_lru]
  | LFU => cases es with
    | nil => exact absurd rfl h
    | cons e rest => simp [applyEvict, evict_lfu]
  | FIFO =>
    obtain ⟨m, hm, hmem⟩ := minEntryBy_mem (fun e => now - e.lastAccess) es h
    have hl := List.length_eraseP_of_mem hmem (p := fun e => e.key == m.key) (by simp)
    simp only [applyEvict, evict_fifo, hm, hl]
    cases es with
    | nil => exact absurd rfl h
    | cons e rest => simp
  | RANDOM =>
    cases es with
    | nil => exact absurd rfl h
    | cons e rest =>
      have hmem : (e :: rest).getD (choice % (rest.length + 1)) e ∈ e :: rest :=
        getD_mem _ _ _ (by simp)
      have hl := List.length_eraseP_of_mem hmem
        (p := fun x => x.key == ((e :: rest).getD (choice % (rest.length + 1)) e).key) (by simp)
      simp only [applyEvict, evict_random, hl]
      simp

theorem applyEvict_subset (p : Policy) (now choice : Nat) (es : List CEntry) :
    ∀ e ∈ applyEvict p now choice es, e ∈ es := by
  cases p with
  | LRU => cases es with
    | nil => simp [applyEvict, evict_lru]
    | cons a rest => intro e he; simp [applyEvict, evict_lru] at he; simp [he]
  | LFU => cases es with
    | nil => simp [applyEvict, evict_lfu]
    | cons a rest => intro e he; simp [applyEvict, evict_lfu] at he; simp [he]
  | FIFO =>
    intro e he
    simp only [applyEvict, evict_fifo] at he
    cases hm : minEntryBy (fun x => now - x.lastAccess) es with
    | none => rw [hm] at he; exact he
    | some m => rw [hm] at he; exact (List.eraseP_sublist es).mem he
  | RANDOM =>
    intro e he
    cases es with
    | nil => simp [applyEvict, evict_random] at he
    | cons a rest =>
      simp only [applyEvict, evict_random] at he
      exact (List.eraseP_sublist (a :: rest)).mem he

theorem redis_setex_length (es : List CEntry) (k v : String) (now : Nat) :
    (redis_setex es k v now).length ≤ es.length + 1 := by
  by_cases hany : es.any (fun e => e.key == k)
  · simp [redis_setex, hany]
  · simp [redis_setex, hany]

theorem applyEvict_nil (p : Policy) (now choice : Nat) : applyEvict p now choice [] = [] := by
  cases p <;> simp [applyEvict, evict_lru, evict_lfu, evict_fifo, evict_random, minEntryBy]

theorem evict_if_needed_length_le (p : Policy) (cap now choice : Nat) (es : List CEntry) :
    (evict_if_needed p cap now choice es).length ≤ es.length := by
  by_cases hfull : cap ≤ es.length
  · cases hes : es with
    | nil => simp [evict_if_needed, hfull, hes, applyEvict_nil]
    | cons a rest =>
      rw [← hes]
      have := applyEvict_length p now choice es (by simp [hes])
      simp only [evict_if_needed, hfull, if_pos]
      omega
  · simp [evict_if_needed, hfull]

theorem evict_if_needed_bound (p : Policy) (cap now choice : Nat) (es : List CEntry)
    (hcap : 1 ≤ cap) (hes : es.length ≤ cap) :
    (evict_if_needed p cap now choice es).length + 1 ≤ cap + 1 ∧
    (cap ≤ es.length → (evict_if_needed p cap now choice es).length + 1 ≤ cap) := by
  by_cases hfull : cap ≤ es.length
  · have hlen : es.length = cap := le_antisymm hes hfull
    have hne : es ≠ [] := by
      intro h0; rw [h0] at hlen; simp at hlen; omega
    have hev := applyEvict_length p now choice es hne
    simp only [evict_if_needed, hfull, if_pos]
    omega
  · simp only [evict_if_needed, hfull, if_neg, not_false_eq_true]
    omega

/-- C1 (amended): every `put` (`CacheManager.set`) performs at most one
eviction, so the bound `size ≤ capacity` is preserved only from states
already within capacity: if `capacity ≥ 1` and the cache holds at most
`capacity` entries before the call, it holds at most `capacity` entries
after the call returns, for every policy, transport outcome and random
draw.  (It does not repeat eviction until `size < capacity`, see
`c1_counterexample`.) -/
theorem c1_put_size_bounded (p : Policy) (cap now choice : Nat) (ok : Bool)
    (es : List CEntry) (k v : String) (hcap : 1 ≤ cap) (hes : es.length ≤ cap) :
    ((cacheManager_set p cap now choice ok es k v).2).length ≤ cap := by
  have hb := evict_if_needed_bound p cap now choice es hcap hes
  by_cases hfull : cap ≤ es.length
  · have hkey := hb.2 hfull
    cases ok with
    | true =>
      have hx := redis_setex_length (evict_if_needed p cap now choice es) k v now
      simp only [cacheManager_set, if_pos]
      omega
    | false =>
      simp only [cacheManager_set, if_neg, Bool.false_eq_true, not_false_eq_true]
      omega
  · have hid : evict_if_needed p cap now choice es = es := by
      simp [evict_if_needed, hfull]
    cases ok with
    | true =>
      have hx := redis_setex_length (evict_if_needed p cap now choice es) k v now
      simp only [cacheManager_set, if_pos, hid] at hx ⊢
      omega
    | false =>
      simp only [cacheManager_set, if_neg, Bool.false_eq_true, not_false_eq_true, hid]
      omega

/-- Witness for `c1_put_size_bounded` at a concrete input. -/
theorem c1_put_size_bounded_witness :
    ((cacheManager_set Policy.LRU 1 0 0 true [] "a" "x").2).length ≤ 1 :=
  c1_put_size_bounded Policy.LRU 1 0 0 true [] "a" "x" (by decide) (by decide)

/-- C1 counterexample: capacity 1, cache already holding 2 entries; `set`
evicts exactly one entry (`keys[0]`) and then inserts, so the cache still
holds 2 > 1 entries after `put` returns — the claimed bound fails when the
cache starts above capacity, because `_evict_if_needed` is an `if`, not a
loop. -/
theorem c1_counterexample :
    ¬ ((cacheManager_set Policy.LRU 1 0 0 true
        [⟨"a", "x", 0⟩, ⟨"b", "y", 0⟩] "c" "z").2.length ≤ 1) := by decide

/-- C5 (amended): when the transport fails during the `setex` step,
`CacheManager.set` reports failure (returns `False`) and does not insert the
new entry — every entry of the resulting cache was already resident — but
an eviction performed before the failure persists, so the state is not
necessarily unchanged: at most one entry may have been evicted. -/
theorem c5_transport_failure (p : Policy) (cap now choice : Nat)
    (es : List CEntry) (k v : String) :
    (cacheManager_set p cap now choice false es k v).1 = false ∧
    (∀ e ∈ (cacheManager_set p cap now choice false es k v).2, e ∈ es) ∧
    es.length ≤ (cacheManager_set p cap now choice false es k v).2.length + 1 := by
  refine ⟨rfl, ?_, ?_⟩
  · intro e he
    simp only [cacheManager_set, Bool.false_eq_true, if_neg, not_false_eq_true] at he
    by_cases hfull : cap ≤ es.length
    · simp only [evict_if_needed, hfull, if_pos] at he
      exact applyEvict_subset p now choice es e he
    · simp only [evict_if_needed, hfull, if_neg, not_false_eq_true] at he
      exact he
  · simp only [cacheManager_set, Bool.false_eq_true, if_neg, not_false_eq_true]
    have := evict_if_needed_length_le p cap now choice es
    by_cases hfull : cap ≤ es.length
    · cases hes : es with
      | nil => simp [evict_if_needed, applyEvict_nil]
      | cons a rest =>
        rw [← hes]
        have hev := applyEvict_length p now choice es (by simp [hes])
        simp only [evict_if_needed, hfull, if_pos]
        omega
    · simp only [evict_if_needed, hfull, if_neg, not_false_eq_true]
      omega

/-- C5 counterexample: capacity 1, cache holding entry `a`; a `put` of `b`
whose `setex` raises returns `False` but has already evicted `a` — the
cache state after the failed `put` is empty, not the original `[a]`. -/
theorem c5_counterexample :
    cacheManager_set Policy.LRU 1 0 0 false [⟨"a", "x", 0⟩] "b" "y" = (false, []) ∧
    ([] : List CEntry) ≠ [⟨"a", "x", 0⟩] := by decide

/-- C6: at a state whose key listing is `[b, a]` with `b` last accessed at
time 10 and `a` at time 5, the code's LRU eviction (`_evict_lru` via
`_evict_if_needed`) deletes `b` — the first listed key — while the entry
with the oldest last-access timestamp (the spec's LRU victim, tie-break
lowest key) is `a`.  The code's own comment says it deletes the oldest key;
it does not. -/
theorem c6_lru_divergence :
    evict_if_needed Policy.LRU 2 0 0 [⟨"b", "vb", 10⟩, ⟨"a", "va", 5⟩] = [⟨"a", "va", 5⟩] ∧
    specLruVictim [⟨"b", "vb", 10⟩, ⟨"a", "va", 5⟩] = some "a" ∧
    ("a" : String) ≠ "b" := by decide

/-! ## Helper lemmas about the resolution pipeline -/

theorem truthy_eq (o : Option String) (h : truthy o = true) :
    o = some (o.getD "") ∧ o.getD "" ≠ "" := by
  cases o with
  | none => simp [truthy] at h
  | some s =>
    simp only [truthy, bne_iff_ne, ne_eq, decide_eq_true_eq] at h
    simp [h]

theorem find_map_set (k a : String) (c : List (String × String))
    (h : c.any (fun kv => kv.1 == k) = true) :
    ((c.map (fun kv => if kv.1 == k then (kv.1, a) else kv)).find?
        (fun kv => kv.1 == k)).map (fun kv => kv.2) = some a := by
  induction c with
  | nil => simp at h
  | cons kv rest ih =>
    by_cases hh : (kv.1 == k) = true
    · rw [List.map_cons, if_pos hh, List.find?_cons]
      simp [hh]
    · have hh' : (kv.1 == k) = false := by
        rwa [← Bool.not_eq_true]
      rw [List.map_cons, if_neg hh, List.find?_cons]
      simp only [hh', cond_false]
      apply ih
      simpa [List.any_cons, hh'] using h

theorem find_append_set (k a : String) (c : List (String × String))
    (h : c.any (fun kv => kv.1 == k) = false) :
    (((c ++ [(k, a)]).find? (fun kv => kv.1 == k)).map (fun kv => kv.2)) = some a := by
  induction c with
  | nil => simp
  | cons kv rest ih =>
    have hh : (kv.1 == k) = false := by
      simp only [List.any_cons] at h
      exact (Bool.or_eq_false_iff.mp h).1
    rw [List.cons_append, List.find?_cons]
    simp only [hh, cond_false]
    apply ih
    simp only [List.any_cons] at h
    exact (Bool.or_eq_false_iff.mp h).2

theorem get_cached_answer_cache_answer (q a : String) (c : List (String × String)) :
    get_cached_answer q (cache_answer q a c) = some a := by
  by_cases hany : (c.any (fun kv => kv.1 == llm_cache_key q)) = true
  · simp only [cache_answer, hany, if_pos, get_cached_answer]
    exact find_map_set (llm_cache_key q) a c hany
  · simp only [cache_answer, hany, if_neg, Bool.not_eq_true, get_cached_answer]
    exact find_append_set (llm_cache_key q) a c (by rwa [← Bool.not_eq_true])

theorem resolve_caches (client : String → String) (s : PipelineState) (q : String) :
    get_cached_answer q ((resolve client s q).2).cache = some ((resolve client s q).1.1) := by
  by_cases h1 : truthy (get_cached_answer q s.cache) = true
  · obtain ⟨ho, _⟩ := truthy_eq _ h1
    simp only [resolve, h1, if_pos]
    exact ho
  · by_cases h2 : truthy (get_answer_from_db q s.db) = true
    · simp only [resolve]
      rw [if_neg h1, if_pos h2]
      exact get_cached_answer_cache_answer q _ s.cache
    · simp only [resolve]
      rw [if_neg h1, if_neg h2]
      exact get_cached_answer_cache_answer q _ s.cache

theorem resolve_cache_hit (client : String → String) (s : PipelineState) (q v : String)
    (hc : get_cached_answer q s.cache = some v) (hv : v ≠ "") :
    resolve client s q = ((v, Source.cache), s) := by
  have ht : truthy (get_cached_answer q s.cache) = true := by
    rw [hc]; simp [truthy, hv]
  simp only [resolve]
  rw [if_pos ht, hc]
  rfl

theorem resolve_store_hit (client : String → String) (s : PipelineState) (q v : String)
    (hmiss : truthy (get_cached_answer q s.cache) = false)
    (hdb : get_answer_from_db q s.db = some v) (hv : v ≠ "") :
    resolve client s q =
      ((v, Source.database), { s with cache := cache_answer q v s.cache }) := by
  have h1 : ¬ (truthy (get_cached_answer q s.cache) = true) := by
    rw [hmiss]; simp
  have h2 : truthy (get_answer_from_db q s.db) = true := by
    rw [hdb]; simp [truthy, hv]
  simp only [resolve]
  rw [if_neg h1, if_pos h2, hdb]
  simp

/-- C3 (amended): after any `resolve` whose returned value is a non-empty
string — a cache hit, a store hit, or a successful client resolution with
non-empty text — a second `resolve` of the same key is answered from the
cache with the same value, leaves the state unchanged, and in particular
performs no external client call (the call counter is unchanged).  The
non-emptiness proviso is forced by `c3_counterexample`: Python truthiness
treats an empty cached/stored answer as a miss. -/
theorem c3_second_resolve_cached (client client2 : String → String)
    (s : PipelineState) (q : String) (h : (resolve client s q).1.1 ≠ "") :
    resolve client2 ((resolve client s q).2) q =
      (((resolve client s q).1.1, Source.cache), (resolve client s q).2) ∧
    ((resolve client2 ((resolve client s q).2) q).2).clientCalls =
      ((resolve client s q).2).clientCalls := by
  have hc := resolve_caches client s q
  have hmain := resolve_cache_hit client2 ((resolve client s q).2) q
    ((resolve client s q).1.1) hc h
  exact ⟨hmain, by rw [hmain]⟩

/-- Witness for `c3_second_resolve_cached` at a concrete input: after the
client resolves key `q` to `ans`, a second resolve is a cache hit. -/
theorem c3_second_resolve_cached_witness :
    resolve (fun _ => "z") ((resolve (fun _ => "ans") ⟨[], [], 0⟩ "q").2) "q" =
      (((resolve (fun _ => "ans") ⟨[], [], 0⟩ "q").1.1, Source.cache),
        (resolve (fun _ => "ans") ⟨[], [], 0⟩ "q").2) ∧
    ((resolve (fun _ => "z") ((resolve (fun _ => "ans") ⟨[], [], 0⟩ "q").2) "q").2).clientCalls =
      ((resolve (fun _ => "ans") ⟨[], [], 0⟩ "q").2).clientCalls :=
  c3_second_resolve_cached (fun _ => "ans") (fun _ => "z") ⟨[], [], 0⟩ "q" (by decide)

/-- C3 counterexample: the external client resolves key `q` to the empty
string; `run_batches` records this as a client-sourced resolution and writes
it to cache and store, but both the cached and the stored empty answer are
falsy for `if cached:` / `if db_ans:` — the second `resolve` of the same key
calls the external client again (counter 1 → 2). -/
theorem c3_counterexample :
    ((resolve (fun _ => "") ⟨[], [], 0⟩ "q").2).clientCalls = 1 ∧
    ((resolve (fun _ => "")
        ((resolve (fun _ => "") ⟨[], [], 0⟩ "q").2) "q").2).clientCalls = 2 := by decide

/-- C4 (amended): on a cache miss followed by a store hit, `resolve` returns
the answer of the first store row whose `question_text` contains the key as
a case-insensitive substring (`ILIKE '%key%' LIMIT 1`) with
`source = database`, writes that answer through to the cache before
returning — so a subsequent cache probe for the key hits — makes no external
client call, and leaves the store unchanged.  The three lookups are
attempted strictly in cache → store → client order.  The returned value is
the key's own stored value only when the key's row is the first match; see
`c4_counterexample`. -/
theorem c4_store_hit_write_through (client : String → String) (s : PipelineState)
    (q v : String) (hmiss : truthy (get_cached_answer q s.cache) = false)
    (hdb : get_answer_from_db q s.db = some v) (hv : v ≠ "") :
    resolve client s q =
      ((v, Source.database), { s with cache := cache_answer q v s.cache }) ∧
    get_cached_answer q ((resolve client s q).2).cache = some v ∧
    ((resolve client s q).2).clientCalls = s.clientCalls ∧
    ((resolve client s q).2).db = s.db := by
  have hmain := resolve_store_hit client s q v hmiss hdb hv
  refine ⟨hmain, ?_, by rw [hmain], by rw [hmain]⟩
  rw [hmain]
  exact get_cached_answer_cache_answer q v s.cache

/-- Witness for `c4_store_hit_write_through`: spec scenario 2 — store holds
`("Q1", "ans1")`, the cache is empty, and `resolve "Q1"` returns
`("ans1", database)` and caches it. -/
theorem c4_store_hit_write_through_witness :
    resolve (fun _ => "z") ⟨[], [⟨"Q1", "", some "ans1"⟩], 0⟩ "Q1" =
      (("ans1", Source.database),
        { cache := cache_answer "Q1" "ans1" [], db := [⟨"Q1", "", some "ans1"⟩],
          clientCalls := 0 }) ∧
    get_cached_answer "Q1"
        ((resolve (fun _ => "z") ⟨[], [⟨"Q1", "", some "ans1"⟩], 0⟩ "Q1").2).cache =
      some "ans1" ∧
    ((resolve (fun _ => "z") ⟨[], [⟨"Q1", "", some "ans1"⟩], 0⟩ "Q1").2).clientCalls = 0 ∧
    ((resolve (fun _ => "z") ⟨[], [⟨"Q1", "", some "ans1"⟩], 0⟩ "Q1").2).db =
      [⟨"Q1", "", some "ans1"⟩] :=
  c4_store_hit_write_through (fun _ => "z") ⟨[], [⟨"Q1", "", some "ans1"⟩], 0⟩ "Q1" "ans1"
    (by decide) (by decide) (by decide)

/-- C4 counterexample: the store holds a row `xay ↦ other` before the key's
own row `a ↦ mine`; resolving key `a` on a cache miss returns `other` — the
answer of a different key whose text merely contains `a` — not the key's own
stored value `mine`. -/
theorem c4_counterexample :
    (resolve (fun _ => "z")
        ⟨[], [⟨"xay", "", some "other"⟩, ⟨"a", "", some "mine"⟩], 0⟩ "a").1 =
      ("other", Source.database) ∧
    (⟨"a", "", some "mine"⟩ : DbRow) ∈
      ([⟨"xay", "", some "other"⟩, ⟨"a", "", some "mine"⟩] : List DbRow) ∧
    ("other" : String) ≠ "mine" := by decide

/-- C10: whenever some store row's `question_text` contains the query as a
case-insensitive substring and has a non-null answer, the store lookup
(`get_answer_from_db`) returns the first such row's answer, and — when that
answer is non-empty and the cache misses — `resolve` returns it with
`source = database` and writes it to the cache, with no requirement that any
row's text equal the query exactly. -/
theorem c10_ilike_substring_hit (client : String → String) (s : PipelineState)
    (q : String) (hmatch : ∃ r ∈ s.db, qMatches q r = true) :
    ∃ r ∈ s.db, qMatches q r = true ∧ get_answer_from_db q s.db = r.llm_answer ∧
      ∀ v, r.llm_answer = some v → v ≠ "" →
        truthy (get_cached_answer q s.cache) = false →
        resolve client s q =
          ((v, Source.database), { s with cache := cache_answer q v s.cache }) := by
  have hsome : (s.db.find? (qMatches q)).isSome := List.find?_isSome.mpr hmatch
  obtain ⟨r, hr⟩ := Option.isSome_iff_exists.mp hsome
  have hget : get_answer_from_db q s.db = r.llm_answer := by
    simp [get_answer_from_db, hr]
  refine ⟨r, List.mem_of_find?_eq_some hr, List.find?_some hr, hget, ?_⟩
  intro v hv hvne hmiss
  exact resolve_store_hit client s q v hmiss (by rw [hget, hv]) hvne

/-- Witness for `c10_ilike_substring_hit`: no row's text equals the key `a`,
yet the row `xay ↦ other` matches `ILIKE '%a%'` and its answer is returned,
cached and reported as a store hit. -/
theorem c10_ilike_substring_hit_witness :
    ∃ r ∈ ([⟨"xay", "", some "other"⟩] : List DbRow), qMatches "a" r = true ∧
      get_answer_from_db "a" [⟨"xay", "", some "other"⟩] = r.llm_answer ∧
      ∀ v, r.llm_answer = some v → v ≠ "" →
        truthy (get_cached_answer "a" []) = false →
        resolve (fun _ => "z") ⟨[], [⟨"xay", "", some "other"⟩], 0⟩ "a" =
          ((v, Source.database),
            { cache := cache_answer "a" v [], db := [⟨"xay", "", some "other"⟩],
              clientCalls := 0 }) :=
  c10_ilike_substring_hit (fun _ => "z") ⟨[], [⟨"xay", "", some "other"⟩], 0⟩ "a"
    ⟨⟨"xay", "", some "other"⟩, by decide, by decide⟩

/-! ## Helper lemmas about key rotation and the Gemini retry loop -/

theorem mod_range_cover (n c k : Nat) (hn : 0 < n) (hk : k < n) :
    k ∈ (List.range n).map (fun j => (c + j) % n) := by
  have hc : c % n < n := Nat.mod_lt c hn
  by_cases hle : c % n ≤ k
  · refine List.mem_map.mpr ⟨k - c % n, List.mem_range.mpr (by omega), ?_⟩
    rw [← Nat.mod_add_mod]
    have hsum : c % n + (k - c % n) = k := by omega
    rw [hsum, Nat.mod_eq_of_lt hk]
  · refine List.mem_map.mpr ⟨k + n - c % n, List.mem_range.mpr (by omega), ?_⟩
    rw [← Nat.mod_add_mod]
    have hsum : c % n + (k + n - c % n) = k + n := by omega
    rw [hsum, Nat.add_mod_right, Nat.mod_eq_of_lt hk]

theorem mod_shift_inj (n c a b : Nat) (ha : a < n) (hb : b < n)
    (h : (c + a) % n = (c + b) % n) : a = b := by
  have hmod : a % n = b % n := Nat.ModEq.add_left_cancel' c h
  rwa [Nat.mod_eq_of_lt ha, Nat.mod_eq_of_lt hb] at hmod

theorem rotIter_eq (n i0 : Nat) (h : i0 < n) :
    ∀ m, rotIter n i0 m = (i0 + m) % n := by
  intro m
  induction m with
  | zero =>
    simp only [rotIter, Nat.add_zero]
    exact (Nat.mod_eq_of_lt h).symm
  | succ k ih =>
    simp only [rotIter, rotate_key, ih, Nat.mod_add_mod]
    rw [Nat.add_assoc]

theorem gemLoop_all_fail (oracle : Nat → AttemptResult) (n : Nat)
    (hfail : ∀ i, ∃ st, oracle i = AttemptResult.failure st) :
    ∀ (r tried idx : Nat) (last : Option Int) (used : List Nat), idx < n →
      ∃ st, gemLoop oracle n r tried idx last used =
        (GemOutcome.exhausted st, tried + r,
          used ++ (List.range r).map (fun j => (idx + j) % n)) := by
  intro r
  induction r with
  | zero =>
    intro tried idx last used _hidx
    exact ⟨last, by simp [gemLoop]⟩
  | succ m ih =>
    intro tried idx last used hidx
    have hn : 0 < n := Nat.lt_of_le_of_lt (Nat.zero_le idx) hidx
    obtain ⟨st0, hst0⟩ := hfail tried
    obtain ⟨st, hst⟩ := ih (tried + 1) ((idx + 1) % n) st0 (used ++ [idx]) (Nat.mod_lt _ hn)
    refine ⟨st, ?_⟩
    simp only [gemLoop, hst0]
    rw [hst]
    have hnat : tried + 1 + m = tried + (m + 1) := by omega
    have hlist : (used ++ [idx]) ++ (List.range m).map (fun j => ((idx + 1) % n + j) % n) =
        used ++ (List.range (m + 1)).map (fun j => (idx + j) % n) := by
      rw [List.append_assoc]
      congr 1
      rw [List.range_succ_eq_map, List.map_cons, List.map_map, List.singleton_append]
      have hhead : (idx + 0) % n = idx := by
        rw [Nat.add_zero]; exact Nat.mod_eq_of_lt hidx
      rw [hhead]
      congr 1
      apply List.map_congr_left
      intro j _hj
      simp only [Function.comp]
      rw [Nat.mod_add_mod]
      congr 1
      omega
    rw [hnat, hlist]

/-- C2: when every HTTP call fails (connection error or a non-200 /
unparseable status), `get_answer_from_gemini` with the default
`max_key_attempts=None` terminates after exactly `pool_size` calls — the
pool size times the default retry factor 1 — returning the
all-keys-exhausted error outcome rather than recursing or hanging, and the
sequence of key indices it used covers every credential of the pool at
least once. -/
theorem c2_exhaustion_terminates (oracle : Nat → AttemptResult) (pool : List String)
    (start : Nat) (hpool : pool ≠ []) (hstart : start < pool.length)
    (hfail : ∀ i, ∃ st, oracle i = AttemptResult.failure st) :
    ∃ st : Option Int,
      get_answer_from_gemini oracle pool start =
        (GemOutcome.exhausted st, pool.length,
          (List.range pool.length).map (fun j => (start + j) % pool.length)) ∧
      ∀ k, k < pool.length →
        k ∈ (List.range pool.length).map (fun j => (start + j) % pool.length) := by
  have hn : 0 < pool.length := List.length_pos.mpr hpool
  obtain ⟨st, hst⟩ :=
    gemLoop_all_fail oracle pool.length hfail pool.length 0 start none [] hstart
  refine ⟨st, ?_, ?_⟩
  · simpa [get_answer_from_gemini] using hst
  · intro k hk
    exact mod_range_cover pool.length start k hn hk

/-- Witness for `c2_exhaustion_terminates`: two credentials, every call
answers HTTP 429 — the loop stops after exactly 2 attempts with the
exhausted outcome, having used both keys. -/
theorem c2_exhaustion_terminates_witness :
    ∃ st : Option Int,
      get_answer_from_gemini (fun _ => AttemptResult.failure (some 429)) ["k1", "k2"] 0 =
        (GemOutcome.exhausted st, (["k1", "k2"] : List String).length,
          (List.range (["k1", "k2"] : List String).length).map
            (fun j => (0 + j) % (["k1", "k2"] : List String).length)) ∧
      ∀ k, k < (["k1", "k2"] : List String).length →
        k ∈ (List.range (["k1", "k2"] : List String).length).map
          (fun j => (0 + j) % (["k1", "k2"] : List String).length) :=
  c2_exhaustion_terminates (fun _ => AttemptResult.failure (some 429)) ["k1", "k2"] 0
    (by decide) (by decide) (fun _i => ⟨some 429, rfl⟩)

/-- C8: starting from any in-range key index, `pool.length` consecutive
`_rotate_key` calls return pairwise distinct indices (no credential repeats
before all have been visited), the returned indices cover every credential
of the pool, and every rotation lands on a valid index of the non-empty
pool — `rotate` never comes back empty. -/
theorem c8_rotate_round_robin (pool : List String) (i0 : Nat)
    (hpool : pool ≠ []) (hi : i0 < pool.length) :
    ((List.range pool.length).map (fun j => rotIter pool.length i0 (j + 1))).Nodup ∧
    (∀ k, k < pool.length →
      k ∈ (List.range pool.length).map (fun j => rotIter pool.length i0 (j + 1))) ∧
    (∀ m, (pool.get? (rotIter pool.length i0 m)).isSome = true) := by
  have hn : 0 < pool.length := List.length_pos.mpr hpool
  have hmapeq : (List.range pool.length).map (fun j => rotIter pool.length i0 (j + 1)) =
      (List.range pool.length).map (fun j => (i0 + 1 + j) % pool.length) := by
    apply List.map_congr_left
    intro j _hj
    rw [rotIter_eq pool.length i0 hi (j + 1)]
    congr 1
    omega
  refine ⟨?_, ?_, ?_⟩
  · rw [hmapeq]
    refine (List.nodup_range pool.length).map_on ?_
    intro x hx y hy hxy
    exact mod_shift_inj pool.length (i0 + 1) x y
      (List.mem_range.mp hx) (List.mem_range.mp hy) hxy
  · intro k hk
    rw [hmapeq]
    exact mod_range_cover pool.length (i0 + 1) k hn hk
  · intro m
    have hlt : rotIter pool.length i0 m < pool.length := by
      rw [rotIter_eq pool.length i0 hi m]
      exact Nat.mod_lt _ hn
    rw [List.get?_eq_get hlt]
    rfl

/-- Witness for `c8_rotate_round_robin` on a pool of three credentials
starting at index 0. -/
theorem c8_rotate_round_robin_witness :
    ((List.range (["a", "b", "c"] : List String).length).map
      (fun j => rotIter (["a", "b", "c"] : List String).length 0 (j + 1))).Nodup ∧
    (∀ k, k < (["a", "b", "c"] : List String).length →
      k ∈ (List.range (["a", "b", "c"] : List String).length).map
        (fun j => rotIter (["a", "b", "c"] : List String).length 0 (j + 1))) ∧
    (∀ m, ((["a", "b", "c"] : List String).get?
        (rotIter (["a", "b", "c"] : List String).length 0 m)).isSome = true) :=
  c8_rotate_round_robin ["a", "b", "c"] 0 (by decide) (by decide)

theorem mem_save_question_answer_to_db (q a h' : String) (db : List DbRow) :
    (⟨q, h', some a⟩ : DbRow) ∈ save_question_answer_to_db q a h' db := by
  by_cases hany : (db.any (fun r => r.question_text == q)) = true
  · simp only [save_question_answer_to_db, hany, if_pos]
    obtain ⟨r, hr, hrq⟩ := List.any_eq_true.mp hany
    refine List.mem_map.mpr ⟨r, hr, ?_⟩
    have hq : r.question_text = q := eq_of_beq hrq
    rw [if_pos hrq]
    cases r with
    | mk qt ha la =>
      simp only at hq
      rw [hq]
  · simp [save_question_answer_to_db, hany]

theorem resolve_client_path (client : String → String) (s : PipelineState) (q : String)
    (hmiss : truthy (get_cached_answer q s.cache) = false)
    (hdbmiss : truthy (get_answer_from_db q s.db) = false) :
    resolve client s q =
      ((client q, Source.gemini),
        { cache := cache_answer q (client q) s.cache,
          db := save_question_answer_to_db q (client q) "" s.db,
          clientCalls := s.clientCalls + 1 }) := by
  have h1 : ¬ (truthy (get_cached_answer q s.cache) = true) := by rw [hmiss]; simp
  have h2 : ¬ (truthy (get_answer_from_db q s.db) = true) := by rw [hdbmiss]; simp
  simp only [resolve]
  rw [if_neg h1, if_neg h2]

/-- C7 (amended): when a key's resolution reaches the external client and
every credential fails, `get_answer_from_gemini` returns the exhaustion
error as a plain string and `run_batches` treats it like any other answer:
`resolve` returns that error text with `source = gemini` — not a typed
error — and persists it to both the store (`save_question_answer_to_db`)
and the cache before returning. -/
theorem c7_exhaustion_persisted (oracle : Nat → AttemptResult) (pool : List String)
    (start : Nat) (s : PipelineState) (q : String)
    (hstart : start < pool.length)
    (hfail : ∀ i, ∃ st, oracle i = AttemptResult.failure st)
    (hmiss : truthy (get_cached_answer q s.cache) = false)
    (hdbmiss : truthy (get_answer_from_db q s.db) = false) :
    ∃ st : Option Int,
      (resolve (clientOfGemini oracle pool start) s q).1 =
        (gemText (GemOutcome.exhausted st), Source.gemini) ∧
      (⟨q, "", some (gemText (GemOutcome.exhausted st))⟩ : DbRow) ∈
        ((resolve (clientOfGemini oracle pool start) s q).2).db ∧
      get_cached_answer q ((resolve (clientOfGemini oracle pool start) s q).2).cache =
        some (gemText (GemOutcome.exhausted st)) ∧
      ((resolve (clientOfGemini oracle pool start) s q).2).clientCalls =
        s.clientCalls + 1 := by
  obtain ⟨st, hst⟩ :=
    gemLoop_all_fail oracle pool.length hfail pool.length 0 start none [] hstart
  have hclient : clientOfGemini oracle pool start q = gemText (GemOutcome.exhausted st) := by
    simp [clientOfGemini, get_answer_from_gemini, hst]
  have hmain := resolve_client_path (clientOfGemini oracle pool start) s q hmiss hdbmiss
  rw [hclient] at hmain
  refine ⟨st, ?_, ?_, ?_, ?_⟩ <;> rw [hmain]
  · exact mem_save_question_answer_to_db q (gemText (GemOutcome.exhausted st)) "" s.db
  · exact get_cached_answer_cache_answer q (gemText (GemOutcome.exhausted st)) s.cache

/-- Witness for `c7_exhaustion_persisted`: one credential always answering
HTTP 429; resolving `q` against empty cache and store persists the error
string. -/
theorem c7_exhaustion_persisted_witness :
    ∃ st : Option Int,
      (resolve (clientOfGemini (fun _ => AttemptResult.failure (some 429)) ["k"] 0)
          ⟨[], [], 0⟩ "q").1 =
        (gemText (GemOutcome.exhausted st), Source.gemini) ∧
      (⟨"q", "", some (gemText (GemOutcome.exhausted st))⟩ : DbRow) ∈
        ((resolve (clientOfGemini (fun _ => AttemptResult.failure (some 429)) ["k"] 0)
            ⟨[], [], 0⟩ "q").2).db ∧
      get_cached_answer "q"
          ((resolve (clientOfGemini (fun _ => AttemptResult.failure (some 429)) ["k"] 0)
              ⟨[], [], 0⟩ "q").2).cache =
        some (gemText (GemOutcome.exhausted st)) ∧
      ((resolve (clientOfGemini (fun _ => AttemptResult.failure (some 429)) ["k"] 0)
          ⟨[], [], 0⟩ "q").2).clientCalls = (0 : Nat) + 1 :=
  c7_exhaustion_persisted (fun _ => AttemptResult.failure (some 429)) ["k"] 0
    ⟨[], [], 0⟩ "q" (by decide) (fun _i => ⟨some 429, rfl⟩)
    (by decide) (by decide)

/-- C7 counterexample: with one always-429 credential, `resolve` of key `q`
returns the literal exhaustion message as an ordinary `(value, gemini)`
result — no typed error — and the store afterwards contains that message as
the persisted answer for `q`, contradicting the claimed no-persistence. -/
theorem c7_counterexample :
    (resolve (clientOfGemini (fun _ => AttemptResult.failure (some 429)) ["k"] 0)
        ⟨[], [], 0⟩ "q").1 =
      ("Error al consultar Gemini: todas las keys probaron y fallaron (último estado 429)",
        Source.gemini) ∧
    ((resolve (clientOfGemini (fun _ => AttemptResult.failure (some 429)) ["k"] 0)
        ⟨[], [], 0⟩ "q").2).db =
      [⟨"q", "",
        some "Error al consultar Gemini: todas las keys probaron y fallaron (último estado 429)"⟩] ∧
    ((resolve (clientOfGemini (fun _ => AttemptResult.failure (some 429)) ["k"] 0)
        ⟨[], [], 0⟩ "q").2).clientCalls = 1 := by decide

/-- C9 (amended): the batch upsert of `ingresar.py` (`upsertOne`, the
`ON CONFLICT (id) DO UPDATE` clause) preserves the claim: on an id conflict
the updated row keeps a non-empty existing `question_text` and a non-empty
existing `human_answer`, while the computed fields (`llm_answer`, the four
scores, `evaluated_at`) are replaced by the new row's values.  The claim
fails for the pipeline's other write path `save_question_answer_to_db`, see
`c9_counterexample`. -/
theorem c9_upsert_preserves (t : List QRecord) (r x : QRecord)
    (hx : x ∈ t) (hid : x.id = r.id) :
    conflictUpdate x r ∈ upsertOne t r ∧
    (isEmptyField x.human_answer = false →
      (conflictUpdate x r).human_answer = x.human_answer) ∧
    (isEmptyField x.question_text = false →
      (conflictUpdate x r).question_text = x.question_text) ∧
    (conflictUpdate x r).llm_answer = r.llm_answer ∧
    (conflictUpdate x r).similarity_score = r.similarity_score ∧
    (conflictUpdate x r).quality_score = r.quality_score ∧
    (conflictUpdate x r).completeness_score = r.completeness_score ∧
    (conflictUpdate x r).overall_score = r.overall_score ∧
    (conflictUpdate x r).evaluated_at = r.evaluated_at := by
  have hbeq : (x.id == r.id) = true := by simp [hid]
  have hany : (t.any (fun y => y.id == r.id)) = true :=
    List.any_eq_true.mpr ⟨x, hx, hbeq⟩
  refine ⟨?_, ?_, ?_, rfl, rfl, rfl, rfl, rfl, rfl⟩
  · simp only [upsertOne, hany, if_pos]
    refine List.mem_map.mpr ⟨x, hx, ?_⟩
    rw [if_pos hbeq]
  · intro h
    simp [conflictUpdate, h]
  · intro h
    simp [conflictUpdate, h]

/-- Witness for `c9_upsert_preserves`: a conflicting record keeps the
existing non-empty `question_text` / `human_answer` and takes the new
computed fields. -/
theorem c9_upsert_preserves_witness :
    conflictUpdate ⟨1, some "qt", some "ha", none, none, none, none, none, some "c", none⟩
        ⟨1, some "qt2", some "", some "new", some 5, some 6, some 7, some 8, some "c2", some "e"⟩ ∈
      upsertOne [⟨1, some "qt", some "ha", none, none, none, none, none, some "c", none⟩]
        ⟨1, some "qt2", some "", some "new", some 5, some 6, some 7, some 8, some "c2", some "e"⟩ ∧
    (isEmptyField (some "ha" : Option String) = false →
      (conflictUpdate ⟨1, some "qt", some "ha", none, none, none, none, none, some "c", none⟩
        ⟨1, some "qt2", some "", some "new", some 5, some 6, some 7, some 8, some "c2",
          some "e"⟩).human_answer = some "ha") ∧
    (isEmptyField (some "qt" : Option String) = false →
      (conflictUpdate ⟨1, some "qt", some "ha", none, none, none, none, none, some "c", none⟩
        ⟨1, some "qt2", some "", some "new", some 5, some 6, some 7, some 8, some "c2",
          some "e"⟩).question_text = some "qt") ∧
    (conflictUpdate ⟨1, some "qt", some "ha", none, none, none, none, none, some "c", none⟩
      ⟨1, some "qt2", some "", some "new", some 5, some 6, some 7, some 8, some "c2",
        some "e"⟩).llm_answer = some "new" ∧
    (conflictUpdate ⟨1, some "qt", some "ha", none, none, none, none, none, some "c", none⟩
      ⟨1, some "qt2", some "", some "new", some 5, some 6, some 7, some 8, some "c2",
        some "e"⟩).similarity_score = some 5 ∧
    (conflictUpdate ⟨1, some "qt", some "ha", none, none, none, none, none, some "c", none⟩
      ⟨1, some "qt2", some "", some "new", some 5, some 6, some 7, some 8, some "c2",
        some "e"⟩).quality_score = some 6 ∧
    (conflictUpdate ⟨1, some "qt", some "ha", none, none, none, none, none, some "c", none⟩
      ⟨1, some "qt2", some "", some "new", some 5, some 6, some 7, some 8, some "c2",
        some "e"⟩).completeness_score = some 7 ∧
    (conflictUpdate ⟨1, some "qt", some "ha", none, none, none, none, none, some "c", none⟩
      ⟨1, some "qt2", some "", some "new", some 5, some 6, some 7, some 8, some "c2",
        some "e"⟩).overall_score = some 8 ∧
    (conflictUpdate ⟨1, some "qt", some "ha", none, none, none, none, none, some "c", none⟩
      ⟨1, some "qt2", some "", some "new", some 5, some 6, some 7, some 8, some "c2",
        some "e"⟩).evaluated_at = some "e" :=
  c9_upsert_preserves [⟨1, some "qt", some "ha", none, none, none, none, none, some "c", none⟩]
    ⟨1, some "qt2", some "", some "new", some 5, some 6, some 7, some 8, some "c2", some "e"⟩
    ⟨1, some "qt", some "ha", none, none, none, none, none, some "c", none⟩
    (by decide) (by decide)

/-- C9 counterexample: the pipeline's write path
`save_question_answer_to_db` conflicts on the key `q` whose existing row has
the non-empty reference value `ha`, and overwrites it with the empty string
(`COALESCE` never sees SQL `NULL` because the code passes
`human_answer or ""`). -/
theorem c9_counterexample :
    save_question_answer_to_db "q" "ans" "" [⟨"q", "ha", none⟩] =
      [⟨"q", "", some "ans"⟩] ∧
    ("ha" : String) ≠ "" := by decide
